import Mathlib

/-!
Shallow embedding of the `cli` Go package (github.com/ulikunitz/cli):
the option parser (`options.go`), the command-tree resolver (`command.go`)
and the help-text formatter with its lexer (`print.go`).

Go strings are modelled as lists of characters (`Str`); byte indices into
the valid-UTF-8 strings manipulated by the code coincide with character
indices at every slicing point the code uses ('-' and '=' are ASCII).
Setter callbacks (`Option.SetValue`) mutate external state; the embedding
records every invocation as a `SetCall` event, and models the callback's
own success or failure by the `setOk` field of `Opt`.  `ParseOptions`
contains a loop whose progress depends on `handleLongOption`'s `argsUsed`
result, so it is embedded with explicit fuel: `none` means the loop did
not finish within the given fuel.
-/

abbrev Str := List Char

def str (s : String) : Str := s.toList

/-- `len(a) > 0 && a[0] == '-'` -/
def startsDash : Str → Bool
  | [] => false
  | c :: _ => c = '-'

/-- `strings.HasPrefix(b, a)`: is `a` a prefix of `b`? (`hasPref a b`) -/
def hasPref : Str → Str → Bool
  | [], _ => true
  | _ :: _, [] => false
  | a :: as, b :: bs => a = b && hasPref as bs

/-- `strings.IndexByte(arg, '=')`, as an optional character index. -/
def idxOfEq : Str → Option Nat
  | [] => none
  | c :: r => if c = '=' then some 0 else (idxOfEq r).map (· + 1)

/-- Go `sort.Strings` comparison: lexicographic byte order. -/
def ltStr : Str → Str → Bool
  | [], [] => false
  | [], _ :: _ => true
  | _ :: _, [] => false
  | a :: as, b :: bs => if a = b then ltStr as bs else decide (a < b)

def insertSorted (x : Str) : List Str → List Str
  | [] => [x]
  | y :: ys => if ltStr y x then y :: insertSorted x ys else x :: y :: ys

/-- `sort.Strings`; equal strings are identical, so any sort is faithful. -/
def sortStrs : List Str → List Str
  | [] => []
  | x :: xs => insertSorted x (sortStrs xs)

/-- One recorded invocation of an option's `SetValue` callback. -/
structure SetCall where
  name : Str
  param : Str
  noParam : Bool
deriving DecidableEq

/-- The distinct `OptionError` values produced in `options.go`, one
constructor per construction site. -/
inductive OptErr where
  | unrecognized (arg : Str)
  | requiresNoParam (name : Str)
  | noParam (name : Str)
  | lacksParam (name : Str)
  | setFailedFlagLong (name : Str)
  | setFailedLong (name : Str) (param : Str)
  | setFailedFlagShort (name : Str)
  | setFailedShort (name : Str) (param : Str)
deriving DecidableEq

/-- The `Option` record of `options.go` (named `Opt` here because `Option`
is taken by Lean).  `short = '\x00'` encodes Go's zero rune (no short
name).  `setOk name param noParam` tells whether `SetValue` returns nil. -/
structure Opt where
  name : Str
  short : Char
  names : List Str
  shorts : List Char
  hasParam : Bool
  optionalParam : Bool
  setOk : Str → Str → Bool → Bool

/-- `(*Option).AllNames`: primary name (when non-empty) plus aliases,
sorted. -/
def AllNames (o : Opt) : List Str :=
  sortStrs ((if o.name = [] then [] else [o.name]) ++ o.names)

/-- `(*Option).hasName` -/
def hasName (o : Opt) (nm : Str) : Bool :=
  if nm = [] then false
  else nm = o.name || o.names.any (fun n => n = nm)

/-- `(*Option).hasShortString` -/
def hasShortString (o : Opt) (n : Str) : Bool :=
  if n = [] || n = ['\x00'] then false
  else n = [o.short] || o.shorts.any (fun r => n = [r])

/-- The truncation at the top of `handleLongOption`/`handleShortOptions`:
`args` is cut just before the first later argument that begins with '-'. -/
def truncArgs : List Str → List Str
  | [] => []
  | a :: rest => a :: rest.takeWhile (fun x => !startsDash x)

/-- All `(name, option)` pairs whose long name has the candidate as a
prefix, in declaration order (outer loop over options, inner over
`AllNames`), mirroring the resolution loop of `handleLongOption`. -/
def longMatches : List Opt → Str → List (Str × Opt)
  | [], _ => []
  | o :: os, cand =>
    ((AllNames o).filter (fun n => hasPref cand n)).map (fun n => (n, o))
      ++ longMatches os cand

inductive LongRes where
  | notFound
  | found (name : Str) (o : Opt)
  | ambiguous

/-- Outcome of the long-option resolution loop: the loop keeps the first
match and aborts at a second one, so the result only depends on the
number of matches. -/
def findLongOption (options : List Opt) (cand : Str) : LongRes :=
  match longMatches options cand with
  | [] => .notFound
  | [(n, o)] => .found n o
  | _ => .ambiguous

/-- Calls `SetValue` (recording the call) and maps a callback failure to
the site's `OptionError`. -/
def setResult (u : Nat) (o : Opt) (e : OptErr) (nm pm : Str) (np : Bool) :
    Nat × Option OptErr × List SetCall :=
  if o.setOk nm pm np then (u, none, [⟨nm, pm, np⟩])
  else (u, some e, [⟨nm, pm, np⟩])

/-- `handleLongOption` of `options.go`.  Returns
`(argsUsed, error?, setter calls)`. -/
def handleLongOption (options : List Opt) (args0 : List Str) :
    Nat × Option OptErr × List SetCall :=
  let args := truncArgs args0
  let arg := args.headD []
  let k? := idxOfEq arg
  let cand := match k? with
    | some k => (arg.drop 2).take (k - 2)
    | none => arg.drop 2
  if cand = [] then (1, some (.unrecognized arg), [])
  else
    match findLongOption options cand with
    | .ambiguous => (0, some (.unrecognized arg), [])
    | .notFound => (1, some (.unrecognized arg), [])
    | .found nm o =>
      if o.hasParam = false then
        match k? with
        | some _ => (1, some (.requiresNoParam nm), [])
        | none => setResult 1 o (.setFailedFlagLong nm) nm [] true
      else
        match k? with
        | none =>
          if args.length = 1 then
            if o.optionalParam = false then (1, some (.noParam nm), [])
            else setResult 1 o (.setFailedLong nm []) nm [] true
          else
            setResult 2 o (.setFailedLong nm (args.getD 1 []))
              nm (args.getD 1 []) false
        | some k =>
          setResult 1 o (.setFailedLong nm (arg.drop (k + 1)))
            nm (arg.drop (k + 1)) false

/-- The per-character loop of `handleShortOptions`; `i` is the index of
the next argument available as a parameter (within the truncated slice). -/
def shortsLoop (options : List Opt) (args : List Str) :
    List Char → Nat → Nat × Option OptErr × List SetCall
  | [], i => (i, none, [])
  | c :: cs, i =>
    match options.find? (fun o => hasShortString o [c]) with
    | none => (i, some (.unrecognized [c]), [])
    | some o =>
      if o.hasParam = false then
        if o.setOk [c] [] true then
          let r := shortsLoop options args cs i
          (r.1, r.2.1, ⟨[c], [], true⟩ :: r.2.2)
        else (i, some (.setFailedFlagShort [c]), [⟨[c], [], true⟩])
      else if args.length ≤ i then
        if o.optionalParam = false then (i, some (.lacksParam [c]), [])
        else if o.setOk [c] [] true then
          let r := shortsLoop options args cs i
          (r.1, r.2.1, ⟨[c], [], true⟩ :: r.2.2)
        else (i, some (.setFailedShort [c] []), [⟨[c], [], true⟩])
      else
        let pm := args.getD i []
        if o.setOk [c] pm false then
          let r := shortsLoop options args cs (i + 1)
          (r.1, r.2.1, ⟨[c], pm, false⟩ :: r.2.2)
        else (i + 1, some (.setFailedShort [c] pm), [⟨[c], pm, false⟩])

/-- `handleShortOptions` of `options.go`. -/
def handleShortOptions (options : List Opt) (args0 : List Str) :
    Nat × Option OptErr × List SetCall :=
  let args := truncArgs args0
  shortsLoop options args ((args.headD []).drop 1) 1

/-- The loop body of `ParseOptions`, with explicit fuel; `errs` is the
accumulated `errorList` and `tr` the setter-call trace so far.  `none`
means the loop did not terminate within `fuel` iterations. -/
def parseOptionsAux (options : List Opt) (args : List Str) :
    Nat → Nat → List OptErr → List SetCall →
    Option (Nat × List OptErr × List SetCall)
  | 0, _, _, _ => none
  | fuel + 1, i, errs, tr =>
    if i < args.length then
      let a := args.getD i []
      if hasPref ['-', '-'] a then
        if a = ['-', '-'] then some (i + 1, [], tr)
        else
          let r := handleLongOption options (args.drop i)
          parseOptionsAux options args fuel (i + r.1)
            (errs ++ r.2.1.toList) (tr ++ r.2.2)
      else if hasPref ['-'] a then
        if a = ['-'] then some (i, [], tr)
        else
          let r := handleShortOptions options (args.drop i)
          parseOptionsAux options args fuel (i + r.1)
            (errs ++ r.2.1.toList) (tr ++ r.2.2)
      else some (i, errs, tr)
    else some (i, errs, tr)

/-- `ParseOptions` of `options.go`: result `(n, flattened errors, trace)`;
the error list `[]` is Go's nil error. -/
def ParseOptions (options : List Opt) (args : List Str) (fuel : Nat) :
    Option (Nat × List OptErr × List SetCall) :=
  parseOptionsAux options args fuel 0 [] []

/-! ## Command tree (`command.go`) -/

/-- The errors `Parse` can produce beyond the option errors themselves:
a `CommandError` wrapping a deeper level's error, or the
`unrecognizedCommand` ambiguity error. -/
inductive PErr where
  | optErrs (es : List OptErr)
  | cmdErr (name : Str) (wrapped : PErr)
  | unrecCmd (arg : Str)
deriving DecidableEq

/-- The `Command` record; `hasExec` models `Exec != nil`. -/
inductive Cmd where
  | mk (name : Str) (options : List Opt) (subs : List Cmd) (hasExec : Bool)

def Cmd.name : Cmd → Str
  | .mk n _ _ _ => n

def Cmd.options : Cmd → List Opt
  | .mk _ o _ _ => o

def Cmd.subs : Cmd → List Cmd
  | .mk _ _ s _ => s

def Cmd.hasExec : Cmd → Bool
  | .mk _ _ _ e => e

/-- Subcommands whose name has `arg` as a prefix, in declaration order
(the resolution loop of `Parse` keeps the first and errors at a second). -/
def subMatches : List Cmd → Str → List Cmd
  | [], _ => []
  | c :: cs, arg =>
    (if hasPref arg c.name then [c] else []) ++ subMatches cs arg

/-- The loop of `Parse`: at each level append the command to the chain,
run `ParseOptions` when the command has options, then match the next
positional argument against the subcommands.  `isRoot` is true only at
the first level (Go compares `cmd != root`).  Fuel bounds both the
descent depth and each inner `ParseOptions` run. -/
def parseAux :
    Nat → Cmd → Bool → List Str → Nat → List Cmd → List SetCall →
    Option (List Cmd × Nat × Option PErr × List SetCall)
  | 0, _, _, _, _, _, _ => none
  | fuel + 1, cmd, isRoot, args, n, acc, tr =>
    let acc2 := acc ++ [cmd]
    let step :=
      if cmd.options.length = 0 then
        some (0, ([] : List OptErr), ([] : List SetCall))
      else ParseOptions cmd.options (args.drop n) (fuel + 1)
    match step with
    | none => none
    | some (k, errs, tr2) =>
      let n2 := n + k
      let tr3 := tr ++ tr2
      if errs = [] then
        if n2 < args.length then
          match subMatches cmd.subs (args.getD n2 []) with
          | [] => some (acc2, n2, none, tr3)
          | [c] => parseAux fuel c false args (n2 + 1) acc2 tr3
          | _ => some (acc2, n2, some (.unrecCmd (args.getD n2 [])), tr3)
        else some (acc2, n2, none, tr3)
      else
        some (acc2, n2,
          some (if isRoot then .optErrs errs
                else .cmdErr cmd.name (.optErrs errs)), tr3)

/-- `Parse` of `command.go` (with fuel). -/
def Parse (root : Cmd) (args : List Str) (fuel : Nat) :
    Option (List Cmd × Nat × Option PErr × List SetCall) :=
  parseAux fuel root true args 0 [] []

/-! ## Lexer and formatter (`print.go`) -/

/-- Go `unicode.IsSpace` (White_Space property). -/
def isSpaceGo (c : Char) : Bool :=
  (9 ≤ c.toNat && c.toNat ≤ 13) || c.toNat = 32 || c.toNat = 0x85 ||
  c.toNat = 0xA0 || c.toNat = 0x1680 ||
  (0x2000 ≤ c.toNat && c.toNat ≤ 0x200A) || c.toNat = 0x2028 ||
  c.toNat = 0x2029 || c.toNat = 0x202F || c.toNat = 0x205F ||
  c.toNat = 0x3000

/-- The lexer's token type. -/
inductive Tok where
  | word (v : Str)
  | verbatim (v : Str)
  | paragraph
deriving DecidableEq

/-- The lexer states (`startState`, `nl1State`, `wsState`,
`verbatim1State`, `verbatimState`, `wordState`, `paragraphState`);
buffers are carried in reverse. -/
inductive LexSt where
  | start
  | nl1
  | ws
  | verb1
  | verbat (buf : Str)
  | word (buf : Str)
  | parbrk

/-- One-pass run of the state machine over the remaining input.  The
`unreadRune` transitions of `wordState` (to `startState`) and
`paragraphState` (to `nl1State`) are inlined one step so that every
recursive call consumes exactly one rune. -/
def lexRun : Str → LexSt → List Tok
  | [], st =>
    match st with
    | .verbat buf => [.verbatim buf.reverse]
    | .word buf => [.word buf.reverse]
    | .parbrk => [.paragraph]
    | _ => []
  | r :: rest, st =>
    match st with
    | .start =>
      if r = '\n' then lexRun rest .nl1
      else if isSpaceGo r then lexRun rest .ws
      else lexRun rest (.word [r])
    | .nl1 =>
      if r = '\n' then lexRun rest .parbrk
      else if isSpaceGo r then lexRun rest .verb1
      else lexRun rest (.word [r])
    | .ws =>
      if r = '\n' then lexRun rest .nl1
      else if isSpaceGo r then lexRun rest .ws
      else lexRun rest (.word [r])
    | .verb1 =>
      if r = '\n' then lexRun rest .nl1
      else if isSpaceGo r then lexRun rest .verb1
      else lexRun rest (.verbat [r])
    | .verbat buf =>
      if r = '\n' then .verbatim buf.reverse :: lexRun rest .nl1
      else lexRun rest (.verbat (r :: buf))
    | .word buf =>
      if r = '\n' then .word buf.reverse :: lexRun rest .nl1
      else if isSpaceGo r then .word buf.reverse :: lexRun rest .ws
      else lexRun rest (.word (r :: buf))
    | .parbrk =>
      if r = '\n' then lexRun rest .parbrk
      else if isSpaceGo r then .paragraph :: lexRun rest .verb1
      else .paragraph :: lexRun rest (.word [r])

/-- The token sequence `formatText` consumes for input `s`. -/
def lexText (s : Str) : List Tok := lexRun s .start

/-- The token-consuming loop of `formatText`; `col` is `column`.  At end
of input a final newline is printed when the column is positive. -/
def fmtLoop (indent : Str) (w : Nat) : List Tok → Nat → Str
  | [], col => if 0 < col then ['\n'] else []
  | .paragraph :: ts, col =>
    (if col = 0 then ['\n'] else ['\n', '\n']) ++ fmtLoop indent w ts 0
  | .verbatim v :: ts, col =>
    (if 0 < col then ['\n'] else []) ++ indent ++ [' ', ' '] ++ v ++ ['\n']
      ++ fmtLoop indent w ts 0
  | .word v :: ts, col =>
    let size0 := (if col = 0 then indent.length else 1) + v.length
    if 0 < col ∧ w < col + size0 then
      ['\n'] ++ indent ++ v ++ fmtLoop indent w ts (indent.length + v.length)
    else
      (if col = 0 then indent else [' ']) ++ v
        ++ fmtLoop indent w ts (col + size0)

/-- `formatText` of `print.go`, as the text it writes.  A non-positive
`lineWidth` is replaced by 80. -/
def formatText (s : Str) (lineWidth : Int) (indent : Str) : Str :=
  fmtLoop indent (if lineWidth ≤ 0 then 80 else lineWidth).toNat (lexText s) 0

/-! ## Newline-run and line observers used to state the formatter claims -/

/-- Number of leading newlines. -/
def leadNL : Str → Nat
  | [] => 0
  | c :: r => if c = '\n' then leadNL r + 1 else 0

/-- Number of trailing newlines. -/
def trailNL (l : Str) : Nat := leadNL l.reverse

/-- Scans `l` with `k` pending consecutive newlines; `none` when some run
of consecutive newlines (counting the seed) exceeds 2.  In particular
`(nlScan 0 l).isSome` says `l` has no three consecutive newlines, i.e.
no two consecutive blank lines. -/
def nlScan : Nat → Str → Option Nat
  | k, [] => some k
  | k, c :: r =>
    if c = '\n' then (if k + 1 ≤ 2 then nlScan (k + 1) r else none)
    else nlScan 0 r

/-- Does the string contain a character other than newline? -/
def hasNonNL (l : Str) : Bool := l.any (fun c => c ≠ '\n')

/-- The output lines: segments between newlines (a trailing newline
yields a final empty segment). -/
def splitLines : Str → List Str
  | [] => [[]]
  | c :: r =>
    if c = '\n' then [] :: splitLines r
    else (splitLines r).modifyHead (c :: ·)

/-- No character of `l` is a newline. -/
def noNL (l : Str) : Bool := l.all (fun c => c ≠ '\n')

/-- The words of a token stream, in order. -/
def wordVals : List Tok → List Str
  | [] => []
  | .word v :: ts => v :: wordVals ts
  | _ :: ts => wordVals ts

/-- An output line is within the width, or is the indent followed by a
single input word and over-long only because indent plus word exceed the
width. -/
def goodLine (w : Nat) (indent : Str) (toks : List Tok) (l : Str) : Prop :=
  l.length ≤ w ∨ ∃ v ∈ wordVals toks, l = indent ++ v ∧ w < l.length

/-- Every output line of `o` satisfies `goodLine`. -/
def linesOK (w : Nat) (indent : Str) (toks : List Tok) (o : Str) : Prop :=
  ∀ l ∈ splitLines o, goodLine w indent toks l

instance (w : Nat) (indent : Str) (toks : List Tok) (l : Str) :
    Decidable (goodLine w indent toks l) := by
  unfold goodLine; infer_instance

instance (w : Nat) (indent : Str) (toks : List Tok) (o : Str) :
    Decidable (linesOK w indent toks o) := by
  unfold linesOK; infer_instance

/-- Every token is a word whose payload is non-empty and newline-free
(prose input: no verbatim lines, no paragraph breaks). -/
def proseOnly (ts : List Tok) : Prop :=
  ∀ t ∈ ts, ∃ v ∈ wordVals ts, t = Tok.word v ∧ v ≠ [] ∧ noNL v = true

instance (ts : List Tok) : Decidable (proseOnly ts) := by
  unfold proseOnly; infer_instance

/-- No two adjacent paragraph-break tokens. -/
def noAdjPar : List Tok → Bool
  | .paragraph :: .paragraph :: _ => false
  | _ :: ts => noAdjPar ts
  | [] => true

/-- The last token (if any) is not a paragraph break. -/
def lastNotPar (ts : List Tok) : Bool :=
  decide (ts.getLast? ≠ some Tok.paragraph)

/-- The first token (if any) is not a paragraph break. -/
def headNotPar : List Tok → Bool
  | .paragraph :: _ => false
  | _ => true

/-- Word and verbatim payloads are non-empty and newline-free (true of
every token the lexer produces). -/
def tokGood : Tok → Bool
  | .word v => !v.isEmpty && noNL v
  | .verbatim v => !v.isEmpty && noNL v
  | .paragraph => true

def goodToks (ts : List Tok) : Bool := ts.all tokGood

/-- The externally observable outcome of a `ParseOptions` run: the error
list and the setter-call trace (the consumed-argument count is dropped). -/
def parseState (r : Option (Nat × List OptErr × List SetCall)) :
    Option (List OptErr × List SetCall) :=
  r.map (fun x => (x.2.1, x.2.2))

/-- A setter callback that always succeeds (as in `BoolOption` and
`StringOption`). -/
def alwaysOk : Str → Str → Bool → Bool := fun _ _ _ => true

/-- A no-parameter (boolean) option with the given long and short name. -/
def flagOpt (nm : String) (sh : Char) : Opt :=
  ⟨str nm, sh, [], [], false, false, alwaysOk⟩

/-- A mandatory-parameter option with the given long and short name. -/
def paramOpt (nm : String) (sh : Char) : Opt :=
  ⟨str nm, sh, [], [], true, false, alwaysOk⟩

/-- Two options whose long names `foo` and `foobar` share the prefix
`fo`: resolving `--fo` is ambiguous. -/
def c1opts : List Opt := [flagOpt "foo" 'x', flagOpt "foobar" 'y']

def c1args : List Str := [str "--fo"]

def sOpt : Opt := paramOpt "str" 's'

def fOpt : Opt := paramOpt "f" 'f'

def fooOpt : Opt := paramOpt "foo" 'o'

/-- A non-root command owning a mandatory-parameter option. -/
def c8cmd : Cmd := .mk (str "sub") [fOpt] [] true

def c10root : Cmd := .mk (str "root") [] [] true

/-! ## Helper lemmas -/

lemma idxOfEq_dashdash {p : Str} (hp : idxOfEq p = none) :
    idxOfEq ('-' :: '-' :: p) = none := by
  simp [idxOfEq, hp]

lemma truncArgs_single (a : Str) : truncArgs [a] = [a] := by
  simp [truncArgs]

/-- When `handleLongOption` reports `argsUsed = 0` at the current token,
the `ParseOptions` loop never advances and never terminates. -/
lemma parseOptionsAux_stuck (options : List Opt) (args : List Str) (i : Nat)
    (hlt : i < args.length)
    (hdd : hasPref ['-', '-'] (args.getD i []) = true)
    (hne : args.getD i [] ≠ ['-', '-'])
    (h0 : (handleLongOption options (args.drop i)).1 = 0) :
    ∀ fuel errs tr, parseOptionsAux options args fuel i errs tr = none := by
  intro fuel
  induction fuel with
  | zero => intro errs tr; rfl
  | succ fuel ih =>
    intro errs tr
    simp only [parseOptionsAux]
    rw [if_pos hlt, if_pos hdd, if_neg hne, h0, Nat.add_zero]
    exact ih _ _

/-! ## C1 -/

/-- C1: the claim says `ParseOptions` always terminates, in particular in
the ambiguous-long-option case where `handleLongOption` reports
`argsUsed = 0`.  In fact in that case the loop never advances: on the
option set {`--foo`, `--foobar`} and arguments `["--fo"]` it returns no
result for any amount of fuel (the Go code loops forever).  This
contradicts the claim (a code bug: every other error path consumes at
least one argument so that error accumulation can continue). -/
theorem c1_ambiguous_long_option_diverges (fuel : Nat) :
    ParseOptions c1opts c1args fuel = none := by
  have h := parseOptionsAux_stuck c1opts c1args 0 (by decide) (by decide)
    (by decide) (by decide)
  exact h fuel [] []

/-! ## C5 -/

/-- C5 (confirmed): whenever the `ParseOptions` loop reaches index `i`
with the token `--`, it immediately returns `n = i + 1` with a nil error,
performs no further setter invocation, and leaves every later argument
unconsumed. -/
theorem c5_terminator (options : List Opt) (args : List Str) (i fuel : Nat)
    (errs : List OptErr) (tr : List SetCall)
    (hlt : i < args.length) (hdd : args.getD i [] = ['-', '-']) :
    parseOptionsAux options args (fuel + 1) i errs tr = some (i + 1, [], tr) := by
  simp only [parseOptionsAux]
  rw [if_pos hlt, hdd]
  rfl

theorem c5_witness :
    parseOptionsAux [] [['-', '-']] 1 0 [] [] = some (1, [], []) := by
  exact c5_terminator [] [['-', '-']] 0 0 [] [] (by decide) (by decide)

/-! ## C8 -/

/-- C8 (confirmed): when `ParseOptions` at a command of the chain returns
an error, `Parse` returns at once: the chain ends at that command (no
descent into its subcommands), the consumed count is extended by that
level only, and the error is wrapped in a `CommandError` carrying the
command's name unless the failing command is the root, in which case it
is returned unwrapped. -/
theorem c8_error_stops_descent (cmd : Cmd) (isRoot : Bool) (args : List Str)
    (n fuel k : Nat) (acc : List Cmd) (tr tr2 : List SetCall)
    (errs : List OptErr)
    (hopts : cmd.options ≠ [])
    (hpo : ParseOptions cmd.options (args.drop n) (fuel + 1) = some (k, errs, tr2))
    (herr : errs ≠ []) :
    parseAux (fuel + 1) cmd isRoot args n acc tr =
      some (acc ++ [cmd], n + k,
        some (if isRoot then .optErrs errs else .cmdErr cmd.name (.optErrs errs)),
        tr ++ tr2) := by
  have hlen : ¬(cmd.options.length = 0) := by
    simpa [List.length_eq_zero] using hopts
  simp [parseAux, hlen, hpo, herr]

theorem c8_witness :
    parseAux 2 c8cmd false [str "--f"] 0 [] [] =
      some ([c8cmd], 1,
        some (.cmdErr (str "sub") (.optErrs [.noParam (str "f")])), []) := by
  have h := c8_error_stops_descent c8cmd false [str "--f"] 0 1 1 [] [] []
    [.noParam (str "f")] (by simp [c8cmd, Cmd.options]) (by decide) (by decide)
  simpa [c8cmd, Cmd.name] using h

/-! ## C10 -/

lemma subMatches_mem {cs : List Cmd} {arg : Str} {c : Cmd}
    (h : c ∈ subMatches cs arg) : c ∈ cs := by
  induction cs with
  | nil => simp [subMatches] at h
  | cons d ds ih =>
    by_cases hd : hasPref arg d.name = true
    · simp [subMatches, hd] at h
      rcases h with rfl | h
      · exact List.mem_cons_self _ _
      · exact List.mem_cons_of_mem _ (ih h)
    · simp [subMatches, hd] at h
      exact List.mem_cons_of_mem _ (ih h)

lemma parseAux_chain :
    ∀ (fuel : Nat) (cmd : Cmd) (isRoot : Bool) (args : List Str) (n : Nat)
      (acc : List Cmd) (tr : List SetCall)
      (out : List Cmd × Nat × Option PErr × List SetCall),
      parseAux fuel cmd isRoot args n acc tr = some out →
      ∃ ext, out.1 = acc ++ cmd :: ext ∧
        List.Chain' (fun a b => b ∈ a.subs) (cmd :: ext) := by
  intro fuel
  induction fuel with
  | zero =>
    intro cmd isRoot args n acc tr out h
    simp [parseAux] at h
  | succ fuel ih =>
    intro cmd isRoot args n acc tr out h
    simp only [parseAux] at h
    split at h
    · exact absurd h (by simp)
    · split at h
      · split at h
        · split at h
          · refine ⟨[], ?_, List.chain'_singleton _⟩
            cases h
            rfl
          · next c hm =>
            obtain ⟨ext', h1, h2⟩ := ih _ _ _ _ _ _ _ h
            have hc : c ∈ cmd.subs :=
              subMatches_mem (by rw [hm]; exact List.mem_singleton_self _)
            refine ⟨c :: ext', ?_, ?_⟩
            · rw [h1]; simp
            · exact List.chain'_cons.mpr ⟨hc, h2⟩
          · refine ⟨[], ?_, List.chain'_singleton _⟩
            cases h
            rfl
        · refine ⟨[], ?_, List.chain'_singleton _⟩
          cases h
          rfl
      · refine ⟨[], ?_, List.chain'_singleton _⟩
        cases h
        rfl

/-- C10 (confirmed): whenever `Parse` returns, the command chain is
non-empty, starts at the root, and each later element is a direct
subcommand of its predecessor; in particular the last-element access
performed by `Run` is in bounds. -/
theorem c10_chain_invariant (root : Cmd) (args : List Str) (fuel : Nat)
    (chain : List Cmd) (n : Nat) (err : Option PErr) (tr : List SetCall)
    (h : Parse root args fuel = some (chain, n, err, tr)) :
    chain ≠ [] ∧ chain.head? = some root ∧
      List.Chain' (fun a b => b ∈ a.subs) chain ∧ chain.getLast?.isSome := by
  obtain ⟨ext, h1, h2⟩ := parseAux_chain fuel root true args 0 [] [] _ h
  simp only [List.nil_append] at h1
  subst h1
  refine ⟨by simp, by simp, h2, by simp [List.getLast?_isSome]⟩

theorem c10_witness :
    Parse c10root [] 1 = some ([c10root], 0, none, []) ∧
      ([c10root] ≠ [] ∧ ([c10root] : List Cmd).head? = some c10root ∧
        List.Chain' (fun a b => b ∈ a.subs) [c10root] ∧
        ([c10root] : List Cmd).getLast?.isSome) := by
  have hp : Parse c10root [] 1 = some ([c10root], 0, none, []) := rfl
  exact ⟨hp, c10_chain_invariant c10root [] 1 [c10root] 0 none [] hp⟩

/-! ## C9 -/

/-- C9 (confirmed): the lookahead of both option handlers is truncated at
the first following argument beginning with '-'.  A mandatory
space-separated parameter is therefore never taken from such an
argument: `--name` (resolving to a mandatory-parameter option, no `=`)
followed by a dash-argument yields the missing-parameter error with no
setter call, and likewise `-x` followed by a dash-argument yields the
lacks-parameter error, even though a next argument exists. -/
theorem c9_lookahead_truncation :
    (∀ (opts : List Opt) (p a1 : Str) (rest : List Str) (nm : Str) (o : Opt),
        startsDash a1 = true → idxOfEq p = none → p ≠ [] →
        findLongOption opts p = .found nm o →
        o.hasParam = true → o.optionalParam = false →
        handleLongOption opts ((['-', '-'] ++ p) :: a1 :: rest) =
          (1, some (.noParam nm), [])) ∧
    (∀ (opts : List Opt) (x : Char) (a1 : Str) (rest : List Str) (o : Opt),
        startsDash a1 = true →
        opts.find? (fun o' => hasShortString o' [x]) = some o →
        o.hasParam = true → o.optionalParam = false →
        handleShortOptions opts (['-', x] :: a1 :: rest) =
          (1, some (.lacksParam [x]), [])) := by
  constructor
  · intro opts p a1 rest nm o hdash hp hpne hfind hhas hopt
    have htr : truncArgs ((['-', '-'] ++ p) :: a1 :: rest) = [['-', '-'] ++ p] := by
      simp [truncArgs, List.takeWhile, hdash]
    simp only [handleLongOption, htr]
    simp [idxOfEq_dashdash hp, hpne, hfind, hhas, hopt]
  · intro opts x a1 rest o hdash hfind hhas hopt
    have htr : truncArgs (['-', x] :: a1 :: rest) = [['-', x]] := by
      simp [truncArgs, List.takeWhile, hdash]
    simp only [handleShortOptions, htr]
    simp [shortsLoop, hfind, hhas, hopt]

theorem c9_witness :
    handleLongOption [fooOpt] ((['-', '-'] ++ str "foo") :: [str "-x"]) =
      (1, some (.noParam (str "foo")), []) ∧
    handleShortOptions [sOpt] (['-', 's'] :: [str "-x"]) =
      (1, some (.lacksParam ['s']), []) := by
  constructor
  · exact c9_lookahead_truncation.1 [fooOpt] (str "foo") (str "-x") []
      (str "foo") fooOpt (by decide) (by decide) (by decide) rfl rfl rfl
  · exact c9_lookahead_truncation.2 [sOpt] 's' (str "-x") [] sOpt
      (by decide) rfl rfl rfl

/-! ## C2 -/

/-- C2 is false on the code: with `s` = `str` taking a mandatory
parameter, the token `-sfoo` does not make `s` consume `foo`; the parse
of `["-sfoo"]` invokes no setter at all and reports that `-s` lacks a
parameter (the claim requires the setter call `(s, "foo")`). -/
theorem c2_counterexample :
    handleShortOptions [sOpt] [str "-sfoo"] = (1, some (.lacksParam ['s']), []) ∧
    (handleShortOptions [sOpt] [str "-sfoo"]).2.2 ≠ [⟨['s'], str "foo", false⟩] := by
  decide

/-- C2 (amended): a parameter-taking short option never consumes the
remainder of its own token; the characters after it are treated as
further short options.  Its mandatory parameter comes from the next
whole argument of the (dash-truncated) lookahead: with no following
argument the parse errors with `lacksParam` and invokes no setter, and
with a following non-dash argument `a` the first setter invocation is
`(s, a)`. -/
theorem c2_short_param_next_arg (opts : List Opt) (s : Char) (rest : Str)
    (o : Opt)
    (hfind : opts.find? (fun o' => hasShortString o' [s]) = some o)
    (hhas : o.hasParam = true) (hopt : o.optionalParam = false) :
    handleShortOptions opts [('-' :: s :: rest)] =
      (1, some (.lacksParam [s]), []) ∧
    ∀ (a : Str) (more : List Str), startsDash a = false →
      ((handleShortOptions opts (('-' :: s :: rest) :: a :: more)).2.2).head? =
        some ⟨[s], a, false⟩ := by
  constructor
  · simp only [handleShortOptions, truncArgs_single]
    simp [shortsLoop, hfind, hhas, hopt]
  · intro a more ha
    have htr : truncArgs (('-' :: s :: rest) :: a :: more) =
        ('-' :: s :: rest) :: a :: more.takeWhile (fun x => !startsDash x) := by
      simp [truncArgs, List.takeWhile, ha]
    have hlen : ¬((('-' :: s :: rest) :: a ::
        more.takeWhile (fun x => !startsDash x)).length ≤ 1) := by
      simp
    simp only [handleShortOptions, htr]
    rw [show ((('-' :: s :: rest) :: a ::
        more.takeWhile (fun x => !startsDash x)).headD []).drop 1 = s :: rest
      from rfl]
    simp only [shortsLoop, hfind]
    rw [if_neg (by simp [hhas]), if_neg hlen]
    rw [show (('-' :: s :: rest) :: a ::
        more.takeWhile (fun x => !startsDash x)).getD 1 [] = a from rfl]
    cases hso : o.setOk [s] a false <;> simp [hso]

theorem c2_witness :
    handleShortOptions [sOpt] [('-' :: 's' :: str "x")] =
      (1, some (.lacksParam ['s']), []) ∧
    ((handleShortOptions [sOpt]
        (('-' :: 's' :: str "x") :: str "val" :: [])).2.2).head? =
      some ⟨['s'], str "val", false⟩ := by
  have h := c2_short_param_next_arg [sOpt] 's' (str "x") sOpt rfl rfl rfl
  exact ⟨h.1, h.2 (str "val") [] (by decide)⟩

/-! ## C4 -/

/-- C4 is false on the code as stated: with the single declared option
`--foo` taking a mandatory parameter, exactly one long name starts with
`fo`, yet parsing `--fo` invokes no setter: it reports the
missing-parameter error. -/
theorem c4_counterexample :
    (longMatches [fooOpt] (str "fo")).length = 1 ∧
    handleLongOption [fooOpt] [str "--fo"] =
      (1, some (.noParam (str "foo")), []) := by
  decide

/-- C4 (amended): if exactly one declared long name starts with `p` then
`--p` resolves to that option: its setter is invoked (with `noParam` for
a no-parameter or optional-parameter option) unless the option requires a
mandatory parameter and none is available, in which case the
missing-parameter error for the resolved name is reported; if two or
more declared long names start with `p`, parsing fails with the
unrecognized-option (ambiguity) error and no setter is invoked. -/
theorem c4_long_resolution (opts : List Opt) (p : Str)
    (hp : idxOfEq p = none) (hpne : p ≠ []) :
    (∀ (nm : Str) (o : Opt), longMatches opts p = [(nm, o)] →
        handleLongOption opts [['-', '-'] ++ p] =
          (if o.hasParam = false then
            setResult 1 o (.setFailedFlagLong nm) nm [] true
          else if o.optionalParam = false then (1, some (.noParam nm), [])
          else setResult 1 o (.setFailedLong nm []) nm [] true)) ∧
    (2 ≤ (longMatches opts p).length →
        handleLongOption opts [['-', '-'] ++ p] =
          (0, some (.unrecognized (['-', '-'] ++ p)), [])) := by
  constructor
  · intro nm o hm
    have hfind : findLongOption opts p = .found nm o := by
      rw [findLongOption, hm]
    simp only [handleLongOption, truncArgs_single]
    simp [idxOfEq_dashdash hp, hpne, hfind]
  · intro hlen
    have hfind : findLongOption opts p = .ambiguous := by
      rcases hm : longMatches opts p with _ | ⟨x, _ | ⟨y, t⟩⟩
      · rw [hm] at hlen; simp at hlen
      · rw [hm] at hlen; simp at hlen
      · rw [findLongOption, hm]
    simp only [handleLongOption, truncArgs_single]
    simp [idxOfEq_dashdash hp, hpne, hfind]

theorem c4_witness :
    handleLongOption [fooOpt] [['-', '-'] ++ str "fo"] =
      (1, some (.noParam (str "foo")), []) ∧
    handleLongOption c1opts [['-', '-'] ++ str "fo"] =
      (0, some (.unrecognized (['-', '-'] ++ str "fo")), []) := by
  constructor
  · have h := (c4_long_resolution [fooOpt] (str "fo") (by decide) (by decide)).1
      (str "foo") fooOpt rfl
    exact h.trans (by decide)
  · exact (c4_long_resolution c1opts (str "fo") (by decide) (by decide)).2
      (by decide)

/-! ## C3 -/

/-- C3 is false on the code as stated: for the declared parameter-taking
option `--f` and the parameter string `-1` (which begins with '-'),
parsing `["--f=-1"]` invokes the setter with `-1`, while parsing
`["--f", "-1"]` invokes no setter at all: the lookahead is truncated
before `-1`, `--f` reports a missing parameter, and `-1` is then parsed
as a short-option cluster. -/
theorem c3_counterexample :
    parseState (ParseOptions [fOpt] [str "--f=-1"] 4) =
      some ([], [⟨['f'], str "-1", false⟩]) ∧
    parseState (ParseOptions [fOpt] [str "--f", str "-1"] 4) =
      some ([.noParam ['f'], .unrecognized ['1']], []) ∧
    parseState (ParseOptions [fOpt] [str "--f=-1"] 4) ≠
      parseState (ParseOptions [fOpt] [str "--f", str "-1"] 4) := by
  decide

/-! ## C6 and C7 counterexamples -/

/-- C6 is false on the code: the input `"a\n\n"` ends with a blank line,
and the output `"  a\n\n"` ends with two trailing newlines. -/
theorem c6_counterexample :
    formatText (str "a\n\n") 80 (str "  ") = str "  a\n\n" ∧
    2 ≤ trailNL (formatText (str "a\n\n") 80 (str "  ")) := by
  decide

/-- C7 is false on the code as stated: formatting the one-word prose
input `"abc"` at width 4 with indent `"---"` yields the line `---abc` of
length 6 > 4, although the single word `abc` alone (3 characters) does
not exceed the width. -/
theorem c7_counterexample :
    formatText (str "abc") 4 (str "---") = str "---abc\n" ∧
    splitLines (formatText (str "abc") 4 (str "---")) = [str "---abc", []] ∧
    4 < (str "---abc").length ∧
    wordVals (lexText (str "abc")) = [str "abc"] ∧
    (str "abc").length ≤ 4 := by
  decide

/-! ## C3 helper lemmas -/

lemma setResult_fst (u : Nat) (o : Opt) (e : OptErr) (nm pm : Str) (np : Bool) :
    (setResult u o e nm pm np).1 = u := by
  unfold setResult; split <;> rfl

lemma setResult_snd (u u' : Nat) (o : Opt) (e : OptErr) (nm pm : Str) (np : Bool) :
    (setResult u o e nm pm np).2 = (setResult u' o e nm pm np).2 := by
  unfold setResult; split <;> rfl

lemma hasPref_refl (p : Str) : hasPref p p = true := by
  induction p with
  | nil => rfl
  | cons c cs ih => simp [hasPref, ih]

lemma hasPref_dd (x : Str) : hasPref ['-', '-'] ('-' :: '-' :: x) = true := by
  simp [hasPref]

lemma mem_insertSorted {a x : Str} {l : List Str} :
    a ∈ insertSorted x l ↔ a = x ∨ a ∈ l := by
  induction l with
  | nil => simp [insertSorted]
  | cons y ys ih =>
    by_cases h : ltStr y x = true <;> simp [insertSorted, h, ih] <;> tauto

lemma mem_sortStrs {a : Str} {l : List Str} : a ∈ sortStrs l ↔ a ∈ l := by
  induction l with
  | nil => simp [sortStrs]
  | cons x xs ih => simp [sortStrs, mem_insertSorted, ih]

lemma hasName_mem_AllNames {o : Opt} {nm : Str} (h : hasName o nm = true) :
    nm ∈ AllNames o := by
  unfold hasName at h
  by_cases hne : nm = []
  · simp [hne] at h
  · rw [if_neg hne] at h
    unfold AllNames
    rw [mem_sortStrs, List.mem_append]
    simp only [Bool.or_eq_true, decide_eq_true_eq, List.any_eq_true] at h
    rcases h with h | ⟨n, hn, hn2⟩
    · left
      have hone : o.name ≠ [] := fun hh => hne (h.trans hh)
      rw [if_neg hone]
      simp [h]
    · right
      subst hn2
      exact hn

lemma mem_longMatches {opts : List Opt} {o : Opt} {nm cand : Str}
    (ho : o ∈ opts) (hnm : nm ∈ AllNames o) (hpf : hasPref cand nm = true) :
    (nm, o) ∈ longMatches opts cand := by
  induction opts with
  | nil => simp at ho
  | cons d ds ih =>
    rcases List.mem_cons.mp ho with rfl | ho'
    · simp only [longMatches, List.mem_append]
      left
      exact List.mem_map.mpr ⟨nm, List.mem_filter.mpr ⟨hnm, hpf⟩, rfl⟩
    · simp only [longMatches, List.mem_append]
      right
      exact ih ho'

lemma idxOfEq_eq_append {f : Str} (hf : idxOfEq f = none) (v : Str) :
    idxOfEq (f ++ '=' :: v) = some f.length := by
  induction f with
  | nil => simp [idxOfEq]
  | cons c cs ih =>
    rw [idxOfEq] at hf
    by_cases hc : c = '='
    · simp [hc] at hf
    · rw [if_neg hc] at hf
      have hf' : idxOfEq cs = none := by
        cases hi : idxOfEq cs
        · rfl
        · rw [hi] at hf
          simp at hf
      show idxOfEq ((c :: cs) ++ '=' :: v) = some (c :: cs).length
      rw [List.cons_append, idxOfEq, if_neg hc, ih hf']
      rfl

lemma drop_after_eq (f v : Str) : (f ++ '=' :: v).drop (f.length + 1) = v := by
  induction f with
  | nil => simp
  | cons c cs ih => simp [ih]

/-- A `ParseOptions` run on a single long-option token group that
consumes all remaining arguments: one loop iteration, then the loop
guard fails. -/
lemma parseOptionsAux_one_long (opts : List Opt) (args : List Str) (fuel : Nat)
    (hlt : 0 < args.length)
    (hdd : hasPref ['-', '-'] (args.getD 0 []) = true)
    (hne : args.getD 0 [] ≠ ['-', '-'])
    (hu : args.length ≤ (handleLongOption opts args).1) :
    parseOptionsAux opts args (fuel + 1) 0 [] [] =
      match fuel with
      | 0 => none
      | _ + 1 => some ((handleLongOption opts args).1,
          (handleLongOption opts args).2.1.toList,
          (handleLongOption opts args).2.2) := by
  simp only [parseOptionsAux]
  rw [if_pos hlt, if_pos hdd, if_neg hne, List.drop_zero]
  cases fuel with
  | zero => rfl
  | succ fuel =>
    simp only [parseOptionsAux]
    rw [if_neg (by omega : ¬(0 + (handleLongOption opts args).1 < args.length))]
    simp

/-- C3 (amended): for a declared parameter-taking option with full long
name `f` (no '=' in the name) and any parameter string `v` that does not
begin with '-', parsing `--f=v` and parsing `--f v` leave the same
externally observable option state: the same setter invocations with the
same parameter, and the same errors.  (When `v` begins with '-' the two
forms differ, as the counterexample shows.) -/
theorem c3_eq_forms_equiv (opts : List Opt) (o : Opt) (f v : Str) (fuel : Nat)
    (ho : o ∈ opts) (hhas : o.hasParam = true) (hnm : hasName o f = true)
    (hf : idxOfEq f = none) (hv : startsDash v = false) :
    parseState (ParseOptions opts ['-' :: '-' :: (f ++ '=' :: v)] fuel) =
      parseState (ParseOptions opts ['-' :: '-' :: f, v] fuel) := by
  have hfne : f ≠ [] := by
    intro h
    rw [h] at hnm
    simp [hasName] at hnm
  have hmem : (f, o) ∈ longMatches opts f :=
    mem_longMatches ho (hasName_mem_AllNames hnm) (hasPref_refl f)
  have hidxA : idxOfEq ('-' :: '-' :: (f ++ '=' :: v)) =
      some (f.length + 1 + 1) := by
    rw [idxOfEq, if_neg (by decide), idxOfEq, if_neg (by decide),
      idxOfEq_eq_append hf v]
    rfl
  have hidxB : idxOfEq ('-' :: '-' :: f) = none := idxOfEq_dashdash hf
  have hcandA : (((('-' :: '-' :: (f ++ '=' :: v)) : Str).drop 2).take
      (f.length + 1 + 1 - 2)) = f := by
    show ((f ++ '=' :: v).take (f.length + 1 + 1 - 2)) = f
    rw [show f.length + 1 + 1 - 2 = f.length by omega]
    exact List.take_left f ('=' :: v)
  have hdropA : (('-' :: '-' :: (f ++ '=' :: v)) : Str).drop
      (f.length + 1 + 1 + 1) = v := by
    show ((f ++ '=' :: v) : Str).drop (f.length + 1) = v
    exact drop_after_eq f v
  rcases hm : longMatches opts f with _ | ⟨x, _ | ⟨y, t⟩⟩
  · rw [hm] at hmem
    simp at hmem
  · rw [hm] at hmem
    have hx : x = (f, o) := by
      rcases List.mem_singleton.mp hmem with h
      exact h.symm
    subst hx
    have hfind : findLongOption opts f = .found f o := by
      rw [findLongOption, hm]
    have hA : handleLongOption opts ['-' :: '-' :: (f ++ '=' :: v)] =
        setResult 1 o (.setFailedLong f v) f v false := by
      simp only [handleLongOption, truncArgs_single, List.headD_cons]
      rw [hidxA]
      simp only [hcandA, hdropA]
      rw [if_neg hfne, hfind]
      simp [hhas]
    have hB : handleLongOption opts ['-' :: '-' :: f, v] =
        setResult 2 o (.setFailedLong f v) f v false := by
      have htr : truncArgs ['-' :: '-' :: f, v] = ['-' :: '-' :: f, v] := by
        simp [truncArgs, List.takeWhile, hv]
      simp only [handleLongOption, htr, List.headD_cons]
      rw [hidxB]
      rw [show (('-' :: '-' :: f : Str)).drop 2 = f from rfl]
      rw [if_neg hfne, hfind]
      simp [hhas]
    cases fuel with
    | zero => rfl
    | succ fuel =>
      rw [ParseOptions, ParseOptions,
        parseOptionsAux_one_long opts ['-' :: '-' :: (f ++ '=' :: v)] fuel
          (by simp) (by simpa using hasPref_dd (f ++ '=' :: v))
          (by simp [hfne]) (by rw [hA, setResult_fst]; simp),
        parseOptionsAux_one_long opts ['-' :: '-' :: f, v] fuel
          (by simp) (by simpa using hasPref_dd f)
          (by simp [hfne]) (by rw [hB, setResult_fst]; simp)]
      cases fuel with
      | zero => rfl
      | succ fuel =>
        rw [hA, hB]
        simp [parseState, setResult_snd 1 2 o (.setFailedLong f v) f v false]
  · have hfind : findLongOption opts f = .ambiguous := by
      rw [findLongOption, hm]
    have hA : handleLongOption opts ['-' :: '-' :: (f ++ '=' :: v)] =
        (0, some (.unrecognized ('-' :: '-' :: (f ++ '=' :: v))), []) := by
      simp only [handleLongOption, truncArgs_single, List.headD_cons]
      rw [hidxA]
      simp only [hcandA]
      rw [if_neg hfne, hfind]
    have hB : handleLongOption opts ['-' :: '-' :: f, v] =
        (0, some (.unrecognized ('-' :: '-' :: f)), []) := by
      have htr : truncArgs ['-' :: '-' :: f, v] = ['-' :: '-' :: f, v] := by
        simp [truncArgs, List.takeWhile, hv]
      simp only [handleLongOption, htr, List.headD_cons]
      rw [hidxB]
      rw [show (('-' :: '-' :: f : Str)).drop 2 = f from rfl]
      rw [if_neg hfne, hfind]
    have hsA := parseOptionsAux_stuck opts ['-' :: '-' :: (f ++ '=' :: v)] 0
      (by simp) (by simpa using hasPref_dd (f ++ '=' :: v)) (by simp [hfne])
      (by rw [List.drop_zero, hA])
    have hsB := parseOptionsAux_stuck opts ['-' :: '-' :: f, v] 0
      (by simp) (by simpa using hasPref_dd f) (by simp [hfne])
      (by rw [List.drop_zero, hB])
    rw [ParseOptions, ParseOptions, hsA fuel [] [], hsB fuel [] []]

theorem c3_witness :
    parseState (ParseOptions [fOpt]
        ['-' :: '-' :: (str "f" ++ '=' :: str "val")] 3) =
      some ([], [⟨['f'], str "val", false⟩]) ∧
    parseState (ParseOptions [fOpt]
        ['-' :: '-' :: (str "f" ++ '=' :: str "val")] 3) =
      parseState (ParseOptions [fOpt] ['-' :: '-' :: str "f", str "val"] 3) := by
  refine ⟨by decide, ?_⟩
  exact c3_eq_forms_equiv [fOpt] fOpt (str "f") (str "val") 3
    (List.mem_cons_self _ _) rfl rfl rfl rfl

/-! ## C7: line-width machinery -/

lemma noNL_append {A B : Str} (hA : noNL A = true) (hB : noNL B = true) :
    noNL (A ++ B) = true := by
  simp only [noNL, List.all_append, Bool.and_eq_true]
  exact ⟨hA, hB⟩

lemma splitLines_ne_nil (o : Str) : splitLines o ≠ [] := by
  induction o with
  | nil => simp [splitLines]
  | cons c r ih =>
    by_cases h : c = '\n'
    · simp [splitLines, h]
    · cases hl : splitLines r with
      | nil => exact absurd hl ih
      | cons a as => simp [splitLines, h, hl, List.modifyHead]

lemma splitLines_append_noNL {A : Str} (h : noNL A = true) (B : Str) :
    splitLines (A ++ B) = (splitLines B).modifyHead (A ++ ·) := by
  induction A with
  | nil =>
    cases hl : splitLines B with
    | nil => exact absurd hl (splitLines_ne_nil B)
    | cons a as => simp [List.modifyHead, hl]
  | cons c A' ih =>
    simp only [noNL, List.all_cons, Bool.and_eq_true, decide_eq_true_eq] at h
    have ih' := ih h.2
    simp only [List.cons_append, splitLines, if_neg h.1, List.append_eq]
    rw [ih']
    cases hl : splitLines B with
    | nil => exact absurd hl (splitLines_ne_nil B)
    | cons a as => simp [hl, List.modifyHead]

lemma word_mem_wordVals {v : Str} :
    ∀ {ts : List Tok}, Tok.word v ∈ ts → v ∈ wordVals ts := by
  intro ts
  induction ts with
  | nil => intro h; simp at h
  | cons t ts' ih =>
    intro h
    rcases List.mem_cons.mp h with heq | hmem
    · rw [← heq]
      simp [wordVals]
    · cases t with
      | word u => exact List.mem_cons_of_mem _ (ih hmem)
      | verbatim u => simpa [wordVals] using ih hmem
      | paragraph => simpa [wordVals] using ih hmem

lemma fmtLoop_lines (indent : Str) (w : Nat) (toks0 : List Tok)
    (hind : noNL indent = true) :
    ∀ (ts : List Tok) (l0 : Str),
      (∀ t ∈ ts, ∃ v, t = Tok.word v ∧ v ≠ [] ∧ noNL v = true ∧
        v ∈ wordVals toks0) →
      noNL l0 = true → goodLine w indent toks0 l0 →
      ∀ l ∈ splitLines (l0 ++ fmtLoop indent w ts l0.length),
        goodLine w indent toks0 l := by
  intro ts
  induction ts with
  | nil =>
    intro l0 hts hnl hgd l hl
    by_cases h0 : 0 < l0.length
    · have he : fmtLoop indent w [] l0.length = ['\n'] := by
        simp only [fmtLoop]
        rw [if_pos h0]
      rw [he, splitLines_append_noNL hnl] at hl
      have hsp : splitLines (['\n'] : Str) = [[], []] := rfl
      rw [hsp] at hl
      simp [List.modifyHead] at hl
      rcases hl with rfl | rfl
      · exact hgd
      · left
        simp
    · have hl0 : l0 = [] := by
        cases l0 with
        | nil => rfl
        | cons c r => simp at h0
      subst hl0
      have he : fmtLoop indent w [] ([] : Str).length = [] := rfl
      rw [he] at hl
      simp [splitLines] at hl
      subst hl
      left
      simp
  | cons t ts' ih =>
    intro l0 hts hnl hgd l hl
    obtain ⟨v, rfl, hvne, hvnl, hvmem⟩ := hts _ (List.mem_cons_self _ _)
    have hts' : ∀ t ∈ ts', ∃ v, t = Tok.word v ∧ v ≠ [] ∧ noNL v = true ∧
        v ∈ wordVals toks0 :=
      fun t ht => hts t (List.mem_cons_of_mem _ ht)
    have hivnl : noNL (indent ++ v) = true := noNL_append hind hvnl
    have hgood' : goodLine w indent toks0 (indent ++ v) := by
      by_cases hle : (indent ++ v).length ≤ w
      · exact Or.inl hle
      · exact Or.inr ⟨v, hvmem, rfl, by omega⟩
    simp only [fmtLoop] at hl
    by_cases hw0 : 0 < l0.length ∧
        w < l0.length + ((if l0.length = 0 then indent.length else 1) + v.length)
    · rw [if_pos hw0] at hl
      rw [splitLines_append_noNL hnl] at hl
      have hsp : splitLines (['\n'] ++ indent ++ v ++
          fmtLoop indent w ts' (indent.length + v.length)) =
          [] :: splitLines ((indent ++ v) ++
            fmtLoop indent w ts' (indent.length + v.length)) := by
        show splitLines ('\n' :: ((indent ++ v) ++
          fmtLoop indent w ts' (indent.length + v.length))) = _
        simp [splitLines]
      rw [hsp] at hl
      simp only [List.modifyHead, List.append_nil] at hl
      rcases List.mem_cons.mp hl with rfl | hl'
      · exact hgd
      · have h' := ih (indent ++ v) hts' hivnl hgood'
        rw [List.length_append] at h'
        exact h' l hl'
    · rw [if_neg hw0] at hl
      by_cases h0 : l0.length = 0
      · have hl0 : l0 = [] := List.length_eq_zero.mp h0
        subst hl0
        simp only [List.length_nil, if_pos rfl, List.nil_append,
          Nat.zero_add] at hl
        have h' := ih (indent ++ v) hts' hivnl hgood'
        rw [List.length_append] at h'
        exact h' l (by simpa [List.append_assoc] using hl)
      · have hcol : 0 < l0.length := Nat.pos_of_ne_zero h0
        have hfit : l0.length + (1 + v.length) ≤ w := by
          rcases not_and_or.mp hw0 with h | h
          · exact absurd hcol h
        
          · rw [if_neg h0] at h
            omega
        simp only [if_neg h0] at hl
        have hnl' : noNL (l0 ++ ' ' :: v) = true := by
          apply noNL_append hnl
          simp [noNL, List.all_cons]
          exact fun c hc => by
            have := hvnl
            simp [noNL, List.all_eq_true] at this
            exact this c hc
        have hgd' : goodLine w indent toks0 (l0 ++ ' ' :: v) := by
          left
          simp only [List.length_append, List.length_cons]
          omega
        have h' := ih (l0 ++ ' ' :: v) hts' hnl' hgd'
        have hlen : (l0 ++ ' ' :: v).length = l0.length + (1 + v.length) := by
          simp only [List.length_append, List.length_cons]
          omega
        rw [hlen] at h'
        exact h' l (by simpa [List.append_assoc] using hl)

/-- C7 (amended): for prose input (word tokens only), positive width and
newline-free indent, every output line either fits within `lineWidth` or
is the indent followed by a single input word, placed alone and unsplit,
whose length together with the indent exceeds the width.  (The original
claim's exception — that the word *alone* must exceed the width — fails,
as the counterexample shows: the indent counts toward the line length.) -/
theorem c7_line_width (s indent : Str) (lineWidth : Int)
    (hW : 0 < lineWidth) (hind : noNL indent = true)
    (hts : proseOnly (lexText s)) :
    linesOK lineWidth.toNat indent (lexText s) (formatText s lineWidth indent) := by
  have hw' : ((if lineWidth ≤ 0 then 80 else lineWidth) : Int).toNat =
      lineWidth.toNat := by
    rw [if_neg (by omega)]
  intro l hl
  rw [formatText, hw'] at hl
  refine fmtLoop_lines indent lineWidth.toNat (lexText s) hind (lexText s) []
    ?_ rfl (Or.inl (by simp)) l (by simpa using hl)
  intro t ht
  obtain ⟨v, hvm, rfl, h1, h2⟩ := hts t ht
  exact ⟨v, rfl, h1, h2, hvm⟩

theorem c7_witness :
    linesOK ((4 : Int)).toNat (str "---") (lexText (str "abc def"))
      (formatText (str "abc def") 4 (str "---")) := by
  exact c7_line_width (str "abc def") (str "---") 4 (by decide) (by decide)
    (by decide)

/-! ## C6: blank-line machinery -/

lemma isEmpty_false_of_ne {l : Str} (h : l ≠ []) : l.isEmpty = false := by
  cases l with
  | nil => exact absurd rfl h
  | cons c r => rfl

lemma nlScan_append :
    ∀ (A : Str) (k : Nat) (B : Str),
      nlScan k (A ++ B) = (nlScan k A).bind (fun j => nlScan j B) := by
  intro A
  induction A with
  | nil => intro k B; rfl
  | cons c A' ih =>
    intro k B
    by_cases hc : c = '\n'
    · by_cases hk : k + 1 ≤ 2
      · simp [nlScan, hc, hk, ih]
      · simp [nlScan, hc, hk]
    · simp [nlScan, hc, ih]

lemma nlScan_noNL {A : Str} (h : noNL A = true) (k : Nat) :
    nlScan k A = some (if A.isEmpty then k else 0) := by
  induction A generalizing k with
  | nil => rfl
  | cons c A' ih =>
    simp only [noNL, List.all_cons, Bool.and_eq_true, decide_eq_true_eq] at h
    rw [show nlScan k (c :: A') = nlScan 0 A' from by simp [nlScan, h.1]]
    rw [ih h.2]
    simp

lemma nlScan_noNL_ne {A : Str} (h : noNL A = true) (hne : A ≠ []) (k : Nat) :
    nlScan k A = some 0 := by
  rw [nlScan_noNL h, isEmpty_false_of_ne hne]
  rfl

lemma nlScan_mono :
    ∀ (A : Str) (k k' : Nat), k' ≤ k → (nlScan k A).isSome = true →
      (nlScan k' A).isSome = true := by
  intro A
  induction A with
  | nil => intro k k' _ _; rfl
  | cons c A' ih =>
    intro k k' hle h
    by_cases hc : c = '\n'
    · by_cases hk : k + 1 ≤ 2
      · have hk' : k' + 1 ≤ 2 := by omega
        rw [show nlScan k (c :: A') = nlScan (k + 1) A' from by
          simp [nlScan, hc, hk]] at h
        rw [show nlScan k' (c :: A') = nlScan (k' + 1) A' from by
          simp [nlScan, hc, hk']]
        exact ih (k + 1) (k' + 1) (by omega) h
      · rw [show nlScan k (c :: A') = none from by simp [nlScan, hc, hk]] at h
        simp at h
    · rw [show nlScan k (c :: A') = nlScan 0 A' from by simp [nlScan, hc]] at h
      rw [show nlScan k' (c :: A') = nlScan 0 A' from by simp [nlScan, hc]]
      exact h

lemma leadNL_zero_of_nlScan2 {A : Str} (h : (nlScan 2 A).isSome = true) :
    leadNL A = 0 := by
  cases A with
  | nil => rfl
  | cons c A' =>
    by_cases hc : c = '\n'
    · rw [show nlScan 2 (c :: A') = none from by simp [nlScan, hc]] at h
      simp at h
    · simp [leadNL, hc]

lemma hasNonNL_of_noNL_ne {A : Str} (h : noNL A = true) (hne : A ≠ []) :
    hasNonNL A = true := by
  cases A with
  | nil => exact absurd rfl hne
  | cons c A' =>
    simp only [noNL, List.all_cons, Bool.and_eq_true, decide_eq_true_eq] at h
    simp [hasNonNL, h.1]

lemma hasNonNL_append (A B : Str) :
    hasNonNL (A ++ B) = (hasNonNL A || hasNonNL B) := by
  simp [hasNonNL, List.any_append]

lemma leadNL_append_hasNonNL {A : Str} (h : hasNonNL A = true) (B : Str) :
    leadNL (A ++ B) = leadNL A := by
  induction A with
  | nil => simp [hasNonNL] at h
  | cons c A' ih =>
    by_cases hc : c = '\n'
    · have hA' : hasNonNL A' = true := by
        simp only [hasNonNL, List.any_cons, Bool.or_eq_true] at h
        rcases h with h | h
        · simp [hc] at h
        · exact h
      simp [leadNL, hc, ih hA']
    · simp [leadNL, hc]

lemma hasNonNL_reverse (A : Str) : hasNonNL A.reverse = hasNonNL A := by
  simp [hasNonNL, List.any_eq_true, List.mem_reverse]

lemma trailNL_append_hasNonNL {B : Str} (h : hasNonNL B = true) (A : Str) :
    trailNL (A ++ B) = trailNL B := by
  rw [trailNL, trailNL, List.reverse_append]
  exact leadNL_append_hasNonNL (by rw [hasNonNL_reverse]; exact h) _

lemma trailNL_append_nl (A : Str) : trailNL (A ++ ['\n']) = trailNL A + 1 := by
  rw [trailNL, trailNL, List.reverse_append]
  simp [leadNL]

lemma noNL_reverse {A : Str} (h : noNL A = true) : noNL A.reverse = true := by
  simp only [noNL, List.all_eq_true, List.mem_reverse] at h ⊢
  exact h

lemma trailNL_of_noNL {A : Str} (h : noNL A = true) : trailNL A = 0 := by
  rw [trailNL]
  have h' := noNL_reverse h
  cases hr : A.reverse with
  | nil => rfl
  | cons c r =>
    rw [hr] at h'
    simp only [noNL, List.all_cons, Bool.and_eq_true, decide_eq_true_eq] at h'
    simp [leadNL, h'.1]

lemma trailNL_append_noNL_ne {A v : Str} (hv : noNL v = true) (hvne : v ≠ []) :
    trailNL (A ++ v) = 0 := by
  rw [trailNL_append_hasNonNL (hasNonNL_of_noNL_ne hv hvne)]
  exact trailNL_of_noNL hv

/-! ## C6: token-predicate helper lemmas -/

lemma noAdjPar_tail {t : Tok} {ts : List Tok} (h : noAdjPar (t :: ts) = true) :
    noAdjPar ts = true := by
  cases t with
  | word v => exact h
  | verbatim v => exact h
  | paragraph =>
    cases ts with
    | nil => rfl
    | cons t2 ts2 =>
      cases t2 with
      | word v => exact h
      | verbatim v => exact h
      | paragraph => simp [noAdjPar] at h

lemma lastNotPar_tail {t : Tok} {ts : List Tok}
    (h : lastNotPar (t :: ts) = true) : lastNotPar ts = true := by
  cases ts with
  | nil => rfl
  | cons t2 ts2 =>
    unfold lastNotPar at h ⊢
    rw [List.getLast?_cons_cons] at h
    exact h

lemma lastNotPar_par_ne_nil {ts : List Tok}
    (h : lastNotPar (Tok.paragraph :: ts) = true) : ts ≠ [] := by
  intro hh
  subst hh
  simp [lastNotPar] at h

lemma noAdjPar_par_head {ts : List Tok}
    (h : noAdjPar (Tok.paragraph :: ts) = true) :
    ts.head? ≠ some Tok.paragraph := by
  cases ts with
  | nil => simp
  | cons t2 ts2 =>
    cases t2 with
    | word v => simp
    | verbatim v => simp
    | paragraph => simp [noAdjPar] at h

lemma ne_nil_of_isEmpty_false {l : Str} (h : l.isEmpty = false) : l ≠ [] := by
  cases l with
  | nil => simp at h
  | cons c r => simp

lemma tokGood_word {v : Str} (h : tokGood (Tok.word v) = true) :
    v ≠ [] ∧ noNL v = true := by
  simp only [tokGood, Bool.and_eq_true, Bool.not_eq_true'] at h
  exact ⟨ne_nil_of_isEmpty_false h.1, h.2⟩

lemma tokGood_verbatim {v : Str} (h : tokGood (Tok.verbatim v) = true) :
    v ≠ [] ∧ noNL v = true := by
  simp only [tokGood, Bool.and_eq_true, Bool.not_eq_true'] at h
  exact ⟨ne_nil_of_isEmpty_false h.1, h.2⟩

lemma nlScan_pad {A B : Str} (hA : noNL A = true) (hB : noNL B = true)
    (hBne : B ≠ []) (j : Nat) : nlScan j (A ++ B) = some 0 := by
  rw [nlScan_append, nlScan_noNL hA]
  by_cases hie : A.isEmpty <;> simp [hie, nlScan_noNL_ne hB hBne]

/-- Invariant of the `formatText` loop: with at most `k` newlines pending
before the output, no newline run ever exceeds two, the output ends with
at most one newline, and the output of a word/verbatim-headed stream
contains a non-newline character. -/
lemma fmtLoop_nl (indent : Str) (w : Nat) (hind : noNL indent = true) :
    ∀ (ts : List Tok) (col k : Nat),
      noAdjPar ts = true → lastNotPar ts = true → goodToks ts = true →
      k + (if col = 0 then 0 else 1) +
        (if ts.head? = some Tok.paragraph then 1 else 0) ≤ 2 →
      (nlScan k (fmtLoop indent w ts col)).isSome = true ∧
      trailNL (fmtLoop indent w ts col) ≤ 1 ∧
      (fmtLoop indent w ts col = [] ∨
        (ts = [] ∧ 0 < col ∧ fmtLoop indent w ts col = ['\n']) ∨
        hasNonNL (fmtLoop indent w ts col) = true) ∧
      (ts ≠ [] → ts.head? ≠ some Tok.paragraph →
        hasNonNL (fmtLoop indent w ts col) = true) := by
  intro ts
  induction ts with
  | nil =>
    intro col k _ _ _ hk
    by_cases h0 : 0 < col
    · have he : fmtLoop indent w [] col = ['\n'] := by
        simp only [fmtLoop]
        rw [if_pos h0]
      have hk1 : k + 1 ≤ 2 := by
        rw [if_neg (by omega : ¬(col = 0))] at hk
        simpa using hk
      rw [he]
      refine ⟨by simp [nlScan, hk1], by simp [trailNL, leadNL], ?_, ?_⟩
      · exact Or.inr (Or.inl ⟨rfl, h0, rfl⟩)
      · intro hne _
        exact absurd rfl hne
    · have he : fmtLoop indent w [] col = [] := by
        simp only [fmtLoop]
        rw [if_neg h0]
      rw [he]
      refine ⟨by simp [nlScan], by simp [trailNL, leadNL], Or.inl rfl, ?_⟩
      intro hne _
      exact absurd rfl hne
  | cons t ts' ih =>
    intro col k hadj hlast hgood hk
    have hadj' := noAdjPar_tail hadj
    have hlast' := lastNotPar_tail hlast
    have hgood' : goodToks ts' = true := by
      simp only [goodToks, List.all_cons, Bool.and_eq_true] at hgood
      exact hgood.2
    have htg : tokGood t = true := by
      simp only [goodToks, List.all_cons, Bool.and_eq_true] at hgood
      exact hgood.1
    cases t with
    | paragraph =>
      have hkp : k + (if col = 0 then 1 else 2) ≤ 2 := by
        by_cases h0 : col = 0 <;> simp [h0] at hk ⊢ <;> omega
      have hne' : ts' ≠ [] := lastNotPar_par_ne_nil hlast
      have hhd' : ts'.head? ≠ some Tok.paragraph := noAdjPar_par_head hadj
      have hbound : (k + (if col = 0 then 1 else 2)) +
          (if (0 : Nat) = 0 then 0 else 1) +
          (if ts'.head? = some Tok.paragraph then 1 else 0) ≤ 2 := by
        rw [if_pos rfl, if_neg hhd']
        omega
      obtain ⟨ihs, ihtr, ihsh, ihnn⟩ :=
        ih 0 (k + (if col = 0 then 1 else 2)) hadj' hlast' hgood' hbound
      have hRnn : hasNonNL (fmtLoop indent w ts' 0) = true := ihnn hne' hhd'
      have heq : fmtLoop indent w (Tok.paragraph :: ts') col =
          (if col = 0 then ['\n'] else ['\n', '\n']) ++ fmtLoop indent w ts' 0 := by
        simp only [fmtLoop]
      rw [heq]
      have hch : nlScan k (if col = 0 then ['\n'] else ['\n', '\n']) =
          some (k + (if col = 0 then 1 else 2)) := by
        by_cases h0 : col = 0
        · have h1 : k + 1 ≤ 2 := by simpa [h0] using hkp
          simp [h0, nlScan, h1]
        · have h2 : k + 2 ≤ 2 := by simpa [h0] using hkp
          have h1 : k + 1 ≤ 2 := by omega
          simp [h0, nlScan, h1, h2]
      refine ⟨?_, ?_, ?_, ?_⟩
      · rw [nlScan_append, hch]
        simpa using ihs
      · rw [trailNL_append_hasNonNL hRnn]
        exact ihtr
      · refine Or.inr (Or.inr ?_)
        rw [hasNonNL_append, hRnn]
        simp
      · intro _ hcon
        exact absurd rfl hcon
    | verbatim v =>
      obtain ⟨hvne, hvnl⟩ := tokGood_verbatim htg
      have hbound : 1 + (if (0 : Nat) = 0 then 0 else 1) +
          (if ts'.head? = some Tok.paragraph then 1 else 0) ≤ 2 := by
        by_cases hh : ts'.head? = some Tok.paragraph <;> simp [hh]
      obtain ⟨ihs, ihtr, ihsh, ihnn⟩ := ih 0 1 hadj' hlast' hgood' hbound
      have heq : fmtLoop indent w (Tok.verbatim v :: ts') col =
          ((if 0 < col then ['\n'] else []) ++ indent ++ [' ', ' '] ++ v
            ++ ['\n']) ++ fmtLoop indent w ts' 0 := by
        simp only [fmtLoop]
      rw [heq]
      have hXscan : nlScan k ((if 0 < col then ['\n'] else []) ++ indent
          ++ [' ', ' '] ++ v ++ ['\n']) = some 1 := by
        have hsp : ∀ j, nlScan j (' ' :: ' ' :: (v ++ ['\n'])) = some 1 := by
          intro j
          rw [show nlScan j (' ' :: ' ' :: (v ++ ['\n'])) =
            nlScan 0 (v ++ ['\n']) from by simp [nlScan]]
          rw [nlScan_append, nlScan_noNL_ne hvnl hvne]
          simp [nlScan]
        rw [show ((if 0 < col then ['\n'] else []) ++ indent ++ [' ', ' ']
            ++ v ++ ['\n']) = (if 0 < col then ['\n'] else []) ++
            (indent ++ ([' ', ' '] ++ (v ++ ['\n']))) from by
          simp [List.append_assoc]]
        rw [nlScan_append]
        have hpre : nlScan k (if 0 < col then ['\n'] else []) =
            some (if 0 < col then k + 1 else k) := by
          by_cases h0 : 0 < col
          · have hk1 : k + 1 ≤ 2 := by
              rw [if_neg (by omega : ¬(col = 0))] at hk
              omega
            simp [h0, nlScan, hk1]
          · simp [h0, nlScan]
        rw [hpre]
        rw [show ((some (if 0 < col then k + 1 else k)).bind
            (fun j => nlScan j (indent ++ ([' ', ' '] ++ (v ++ ['\n']))))) =
            nlScan (if 0 < col then k + 1 else k)
              (indent ++ ([' ', ' '] ++ (v ++ ['\n']))) from rfl]
        rw [nlScan_append, nlScan_noNL hind]
        by_cases hie : indent.isEmpty <;> simp [hie, hsp]
      have hOnn : hasNonNL (((if 0 < col then ['\n'] else []) ++ indent
          ++ [' ', ' '] ++ v ++ ['\n']) ++ fmtLoop indent w ts' 0) = true := by
        rw [hasNonNL_append]
        have : hasNonNL ((if 0 < col then ['\n'] else []) ++ indent
            ++ [' ', ' '] ++ v ++ ['\n']) = true := by
          simp [hasNonNL, List.any_append]
        rw [this]
        simp
      refine ⟨?_, ?_, Or.inr (Or.inr hOnn), fun _ _ => hOnn⟩
      · rw [nlScan_append, hXscan]
        simpa using ihs
      · rcases ihsh with hR0 | ⟨_, hcl, _⟩ | hRnn
        · rw [hR0, List.append_nil]
          rw [show ((if 0 < col then ['\n'] else []) ++ indent ++ [' ', ' ']
              ++ v ++ ['\n']) = (((if 0 < col then ['\n'] else []) ++ indent
              ++ [' ', ' ']) ++ v) ++ ['\n'] from by simp [List.append_assoc]]
          rw [trailNL_append_nl, trailNL_append_noNL_ne hvnl hvne]
        · exact absurd hcl (by simp)
        · rw [trailNL_append_hasNonNL hRnn]
          exact ihtr
    | word v =>
      obtain ⟨hvne, hvnl⟩ := tokGood_word htg
      have hvpos : 0 < v.length := List.length_pos.mpr hvne
      simp only [fmtLoop]
      by_cases hw0 : 0 < col ∧
          w < col + ((if col = 0 then indent.length else 1) + v.length)
      · simp only [if_pos hw0]
        have hcpos : 0 < indent.length + v.length := by omega
        have hbound : 0 + (if indent.length + v.length = 0 then 0 else 1) +
            (if ts'.head? = some Tok.paragraph then 1 else 0) ≤ 2 := by
          rw [if_neg (by omega)]
          by_cases hh : ts'.head? = some Tok.paragraph <;> simp [hh]
        obtain ⟨ihs, ihtr, ihsh, ihnn⟩ :=
          ih (indent.length + v.length) 0 hadj' hlast' hgood' hbound
        have hk1 : k + 1 ≤ 2 := by
          rw [if_neg (by omega : ¬(col = 0))] at hk
          omega
        have hXscan : nlScan k (['\n'] ++ (indent ++ v)) = some 0 := by
          rw [show (['\n'] ++ (indent ++ v)) = '\n' :: (indent ++ v) from rfl]
          rw [show nlScan k ('\n' :: (indent ++ v)) =
            nlScan (k + 1) (indent ++ v) from by simp [nlScan, hk1]]
          exact nlScan_pad hind hvnl hvne (k + 1)
        have hassoc : ['\n'] ++ indent ++ v ++
            fmtLoop indent w ts' (indent.length + v.length) =
            (['\n'] ++ (indent ++ v)) ++
              fmtLoop indent w ts' (indent.length + v.length) := by
          simp [List.append_assoc]
        rw [hassoc]
        have hOnn : hasNonNL ((['\n'] ++ (indent ++ v)) ++
            fmtLoop indent w ts' (indent.length + v.length)) = true := by
          rw [hasNonNL_append]
          have : hasNonNL (['\n'] ++ (indent ++ v)) = true := by
            rw [hasNonNL_append, hasNonNL_append,
              hasNonNL_of_noNL_ne hvnl hvne]
            simp
          rw [this]
          simp
        refine ⟨?_, ?_, Or.inr (Or.inr hOnn), fun _ _ => hOnn⟩
        · rw [nlScan_append, hXscan]
          simpa using ihs
        · rcases ihsh with hR0 | ⟨_, _, hRnl⟩ | hRnn
          · rw [hR0, List.append_nil]
            rw [show (['\n'] ++ (indent ++ v)) = (['\n'] ++ indent) ++ v
              from by simp [List.append_assoc]]
            rw [trailNL_append_noNL_ne hvnl hvne]
            omega
          · rw [hRnl, trailNL_append_nl]
            rw [show (['\n'] ++ (indent ++ v)) = (['\n'] ++ indent) ++ v
              from by simp [List.append_assoc]]
            rw [trailNL_append_noNL_ne hvnl hvne]
          · rw [trailNL_append_hasNonNL hRnn]
            exact ihtr
      · simp only [if_neg hw0]
        have hcpos : 0 < col + ((if col = 0 then indent.length else 1)
            + v.length) := by
          by_cases h0 : col = 0 <;> simp [h0] <;> omega
        have hbound : 0 + (if col + ((if col = 0 then indent.length else 1)
            + v.length) = 0 then 0 else 1) +
            (if ts'.head? = some Tok.paragraph then 1 else 0) ≤ 2 := by
          rw [if_neg (by omega)]
          by_cases hh : ts'.head? = some Tok.paragraph <;> simp [hh]
        obtain ⟨ihs, ihtr, ihsh, ihnn⟩ :=
          ih (col + ((if col = 0 then indent.length else 1) + v.length)) 0
            hadj' hlast' hgood' hbound
        have hWnl : noNL (if col = 0 then indent else [' ']) = true := by
          by_cases h0 : col = 0
          · rw [if_pos h0]
            exact hind
          · rw [if_neg h0]
            rfl
        have hWscan : nlScan k ((if col = 0 then indent else [' ']) ++ v) =
            some 0 := nlScan_pad hWnl hvnl hvne k
        have hassoc : (if col = 0 then indent else [' ']) ++ v ++
            fmtLoop indent w ts'
              (col + ((if col = 0 then indent.length else 1) + v.length)) =
            ((if col = 0 then indent else [' ']) ++ v) ++
              fmtLoop indent w ts'
                (col + ((if col = 0 then indent.length else 1) + v.length)) := by
          simp [List.append_assoc]
        rw [hassoc]
        have hOnn : hasNonNL (((if col = 0 then indent else [' ']) ++ v) ++
            fmtLoop indent w ts'
              (col + ((if col = 0 then indent.length else 1) + v.length)))
            = true := by
          rw [hasNonNL_append, hasNonNL_append,
            hasNonNL_of_noNL_ne hvnl hvne]
          simp
        refine ⟨?_, ?_, Or.inr (Or.inr hOnn), fun _ _ => hOnn⟩
        · rw [nlScan_append, hWscan]
          simpa using ihs
        · rcases ihsh with hR0 | ⟨_, _, hRnl⟩ | hRnn
          · rw [hR0, List.append_nil]
            rw [trailNL_append_noNL_ne hvnl hvne]
            omega
          · rw [hRnl, trailNL_append_nl, trailNL_append_noNL_ne hvnl hvne]
          · rw [trailNL_append_hasNonNL hRnn]
            exact ihtr

lemma headNotPar_head {ts : List Tok} (h : headNotPar ts = true) :
    ts.head? ≠ some Tok.paragraph := by
  cases ts with
  | nil => simp
  | cons t ts' =>
    cases t with
    | paragraph => simp [headNotPar] at h
    | word v => simp
    | verbatim v => simp

/-- C6 (amended): for a newline-free indent and any input whose token
stream has no leading, trailing or adjacent paragraph breaks (i.e. the
input has no leading or trailing blank lines and no whitespace-only lines
between blank lines), the output of `formatText` has no run of three
newlines (no two consecutive blank output lines), does not begin with a
newline (no blank line before the first paragraph of output), and ends
with at most one trailing newline.  The original claim, quantified over
*every* input string, is refuted by the counterexample. -/
theorem c6_blank_line_discipline (s indent : Str) (lineWidth : Int)
    (hind : noNL indent = true)
    (hadj : noAdjPar (lexText s) = true)
    (hhead : headNotPar (lexText s) = true)
    (hlast : lastNotPar (lexText s) = true)
    (hgood : goodToks (lexText s) = true) :
    (nlScan 0 (formatText s lineWidth indent)).isSome = true ∧
    leadNL (formatText s lineWidth indent) = 0 ∧
    trailNL (formatText s lineWidth indent) ≤ 1 := by
  have hb : 2 + (if (0 : Nat) = 0 then 0 else 1) +
      (if (lexText s).head? = some Tok.paragraph then 1 else 0) ≤ 2 := by
    rw [if_pos rfl, if_neg (headNotPar_head hhead)]
  obtain ⟨h2, htr, _, _⟩ :=
    fmtLoop_nl indent (if lineWidth ≤ 0 then 80 else lineWidth).toNat hind
      (lexText s) 0 2 hadj hlast hgood hb
  rw [formatText]
  exact ⟨nlScan_mono _ 2 0 (by omega) h2, leadNL_zero_of_nlScan2 h2, htr⟩

theorem c6_witness :
    (nlScan 0 (formatText (str "para one\n\npara two") 80 (str "  "))).isSome
      = true ∧
    leadNL (formatText (str "para one\n\npara two") 80 (str "  ")) = 0 ∧
    trailNL (formatText (str "para one\n\npara two") 80 (str "  ")) ≤ 1 := by
  exact c6_blank_line_discipline (str "para one\n\npara two") (str "  ") 80
    (by decide) (by decide) (by decide) (by decide) (by decide)
